import Mathlib

/-!
Verification development for the autopytest record/replay testing system.

The embedding models Python values (`PyVal`), the pickle-based codec
(`serialize` / `deserialize` from serializer.py), the instrumentation
wrapper (`wrapperStep` from debug.py), the log reader and replay engine
(`loadLog`, `createTestCase`, `testCallable`, `runTestSuite` from
logger.py / testing.py) and the identity/path mapping
(`get_log_file_path`, `load_function` from functionmapping.py).

Byte strings are modelled as `List Nat`; Python strings are carried as
their byte sequences.  The pickle byte format is modelled by an
executable self-delimiting encoding: a protocol header symbol `128`,
a payload, and a stop symbol `46`, mirroring pickle's `\x80 ... .` frame.
Wall-clock durations are abstracted as an integer parameter.
-/

/-- Byte-string of a string literal (Python str/bytes are byte lists here). -/
def bs (s : String) : List Nat := s.data.map Char.toNat

/-- Model of a Python value as stored and moved around by the system. -/
inductive PyVal where
  | none
  | bool (b : Bool)
  | int (n : Int)
  | str (s : List Nat)
  | bytes (b : List Nat)
  | tuple (xs : List PyVal)
  | list (xs : List PyVal)
  | dict (kvs : List (PyVal × PyVal))
  | func (id : Nat)
deriving Repr

mutual

/-- `True` iff pickle can serialize the value (no live callable inside). -/
def picklable : PyVal → Bool
  | .none => true
  | .bool _ => true
  | .int _ => true
  | .str _ => true
  | .bytes _ => true
  | .tuple xs => pickList xs
  | .list xs => pickList xs
  | .dict kvs => pickKV kvs
  | .func _ => false

def pickList : List PyVal → Bool
  | [] => true
  | x :: xs => picklable x && pickList xs

def pickKV : List (PyVal × PyVal) → Bool
  | [] => true
  | (k, v) :: kvs => picklable k && picklable v && pickKV kvs

end

mutual

/-- Structural size, used as decoding fuel bound. -/
def sizeV : PyVal → Nat
  | .none => 1
  | .bool _ => 1
  | .int _ => 1
  | .str _ => 1
  | .bytes _ => 1
  | .tuple xs => 1 + sizeList xs
  | .list xs => 1 + sizeList xs
  | .dict kvs => 1 + sizeKV kvs
  | .func _ => 1

def sizeList : List PyVal → Nat
  | [] => 0
  | x :: xs => sizeV x + sizeList xs

def sizeKV : List (PyVal × PyVal) → Nat
  | [] => 0
  | (k, v) :: kvs => sizeV k + sizeV v + sizeKV kvs

end

mutual

/-- Payload encoding underlying the pickle model. -/
def encodeV : PyVal → List Nat
  | .none => [110]
  | .bool true => [116]
  | .bool false => [102]
  | .int n => if 0 ≤ n then [105, 0, n.toNat] else [105, 1, (-n).toNat]
  | .str s => 115 :: s.length :: s
  | .bytes b => 121 :: b.length :: b
  | .tuple xs => 117 :: xs.length :: encodeList xs
  | .list xs => 108 :: xs.length :: encodeList xs
  | .dict kvs => 100 :: kvs.length :: encodeKV kvs
  | .func _ => [99]

def encodeList : List PyVal → List Nat
  | [] => []
  | x :: xs => encodeV x ++ encodeList xs

def encodeKV : List (PyVal × PyVal) → List Nat
  | [] => []
  | (k, v) :: kvs => encodeV k ++ encodeV v ++ encodeKV kvs

end

/-- Take exactly `n` symbols, failing if the input is shorter. -/
def decodeTake (n : Nat) (b : List Nat) : Option (List Nat × List Nat) :=
  if n ≤ b.length then some (b.take n, b.drop n) else Option.none

/-- Decode `n` consecutive values using the element decoder `d`. -/
def decListAux (d : List Nat → Option (PyVal × List Nat)) :
    Nat → List Nat → Option (List PyVal × List Nat)
  | 0, r => some ([], r)
  | n + 1, r =>
    match d r with
    | some (v, r2) =>
      match decListAux d n r2 with
      | some (vs, r3) => some (v :: vs, r3)
      | Option.none => Option.none
    | Option.none => Option.none

/-- Decode `n` consecutive key/value pairs using the element decoder `d`. -/
def decKVAux (d : List Nat → Option (PyVal × List Nat)) :
    Nat → List Nat → Option (List (PyVal × PyVal) × List Nat)
  | 0, r => some ([], r)
  | n + 1, r =>
    match d r with
    | some (k, r2) =>
      match d r2 with
      | some (v, r3) =>
        match decKVAux d n r3 with
        | some (kvs, r4) => some ((k, v) :: kvs, r4)
        | Option.none => Option.none
      | Option.none => Option.none
    | Option.none => Option.none

/-- Fuelled payload decoder (inverse of `encodeV` on picklable values). -/
def decodeV : Nat → List Nat → Option (PyVal × List Nat)
  | 0, _ => Option.none
  | fuel + 1, b =>
    match b with
    | 110 :: r => some (.none, r)
    | 116 :: r => some (.bool true, r)
    | 102 :: r => some (.bool false, r)
    | 105 :: 0 :: m :: r => some (.int (Int.ofNat m), r)
    | 105 :: 1 :: m :: r => some (.int (-(m : Int)), r)
    | 115 :: l :: r => (decodeTake l r).map (fun p => (.str p.1, p.2))
    | 121 :: l :: r => (decodeTake l r).map (fun p => (.bytes p.1, p.2))
    | 117 :: n :: r =>
        match decListAux (decodeV fuel) n r with
        | some (xs, rest) => some (.tuple xs, rest)
        | Option.none => Option.none
    | 108 :: n :: r =>
        match decListAux (decodeV fuel) n r with
        | some (xs, rest) => some (.list xs, rest)
        | Option.none => Option.none
    | 100 :: n :: r =>
        match decKVAux (decodeV fuel) n r with
        | some (kvs, rest) => some (.dict kvs, rest)
        | Option.none => Option.none
    | _ => Option.none

theorem sizeV_pos : ∀ v : PyVal, 1 ≤ sizeV v := by
  intro v; cases v <;> simp [sizeV]

theorem decodeTake_exact (s rest : List Nat) :
    decodeTake s.length (s ++ rest) = some (s, rest) := by
  unfold decodeTake
  rw [if_pos (by simp)]
  rw [List.take_left, List.drop_left]

theorem decodeV_red_n (fuel : Nat) (r : List Nat) :
    decodeV (fuel + 1) (110 :: r) = some (.none, r) := rfl

theorem decodeV_red_t (fuel : Nat) (r : List Nat) :
    decodeV (fuel + 1) (116 :: r) = some (.bool true, r) := rfl

theorem decodeV_red_f (fuel : Nat) (r : List Nat) :
    decodeV (fuel + 1) (102 :: r) = some (.bool false, r) := rfl

theorem decodeV_red_ipos (fuel m : Nat) (r : List Nat) :
    decodeV (fuel + 1) (105 :: 0 :: m :: r) = some (.int (Int.ofNat m), r) := rfl

theorem decodeV_red_ineg (fuel m : Nat) (r : List Nat) :
    decodeV (fuel + 1) (105 :: 1 :: m :: r) = some (.int (-(m : Int)), r) := rfl

theorem decodeV_red_s (fuel l : Nat) (r : List Nat) :
    decodeV (fuel + 1) (115 :: l :: r)
      = (decodeTake l r).map (fun p => (.str p.1, p.2)) := rfl

theorem decodeV_red_y (fuel l : Nat) (r : List Nat) :
    decodeV (fuel + 1) (121 :: l :: r)
      = (decodeTake l r).map (fun p => (.bytes p.1, p.2)) := rfl

theorem decodeV_red_u (fuel n : Nat) (r : List Nat) :
    decodeV (fuel + 1) (117 :: n :: r)
      = (match decListAux (decodeV fuel) n r with
         | some (xs, rest) => some (.tuple xs, rest)
         | Option.none => Option.none) := rfl

theorem decodeV_red_l (fuel n : Nat) (r : List Nat) :
    decodeV (fuel + 1) (108 :: n :: r)
      = (match decListAux (decodeV fuel) n r with
         | some (xs, rest) => some (.list xs, rest)
         | Option.none => Option.none) := rfl

theorem decodeV_red_d (fuel n : Nat) (r : List Nat) :
    decodeV (fuel + 1) (100 :: n :: r)
      = (match decKVAux (decodeV fuel) n r with
         | some (kvs, rest) => some (.dict kvs, rest)
         | Option.none => Option.none) := rfl

theorem decList_encodeList (fuel : Nat)
    (ih : ∀ v rest, picklable v = true → sizeV v ≤ fuel →
      decodeV fuel (encodeV v ++ rest) = some (v, rest)) :
    ∀ xs rest, pickList xs = true → sizeList xs ≤ fuel →
      decListAux (decodeV fuel) xs.length (encodeList xs ++ rest) = some (xs, rest) := by
  intro xs
  induction xs with
  | nil => intro rest _ _; simp [encodeList, decListAux]
  | cons x xs ihx =>
    intro rest hp hs
    simp only [pickList, Bool.and_eq_true] at hp
    simp only [sizeList] at hs
    have hx : sizeV x ≤ fuel := by
      have := sizeV_pos x; omega
    have hxs : sizeList xs ≤ fuel := by omega
    simp only [encodeList, List.append_assoc, List.length_cons]
    simp only [decListAux]
    rw [ih x (encodeList xs ++ rest) hp.1 hx]
    dsimp only
    rw [ihx rest hp.2 hxs]

theorem decKV_encodeKV (fuel : Nat)
    (ih : ∀ v rest, picklable v = true → sizeV v ≤ fuel →
      decodeV fuel (encodeV v ++ rest) = some (v, rest)) :
    ∀ kvs rest, pickKV kvs = true → sizeKV kvs ≤ fuel →
      decKVAux (decodeV fuel) kvs.length (encodeKV kvs ++ rest) = some (kvs, rest) := by
  intro kvs
  induction kvs with
  | nil => intro rest _ _; simp [encodeKV, decKVAux]
  | cons kv kvs ihx =>
    intro rest hp hs
    obtain ⟨k, v⟩ := kv
    simp only [pickKV, Bool.and_eq_true] at hp
    simp only [sizeKV] at hs
    have hk : sizeV k ≤ fuel := by
      have := sizeV_pos k; have := sizeV_pos v; omega
    have hv : sizeV v ≤ fuel := by
      have := sizeV_pos k; omega
    have hkvs : sizeKV kvs ≤ fuel := by omega
    simp only [encodeKV, List.append_assoc, List.length_cons]
    simp only [decKVAux]
    rw [ih k (encodeV v ++ (encodeKV kvs ++ rest)) hp.1.1 hk]
    dsimp only
    rw [ih v (encodeKV kvs ++ rest) hp.1.2 hv]
    dsimp only
    rw [ihx rest hp.2 hkvs]

theorem decodeV_encodeV :
    ∀ (fuel : Nat) (v : PyVal) (rest : List Nat), picklable v = true → sizeV v ≤ fuel →
      decodeV fuel (encodeV v ++ rest) = some (v, rest) := by
  intro fuel
  induction fuel with
  | zero => intro v rest _ hs; have := sizeV_pos v; omega
  | succ fuel ih =>
    intro v rest hp hs
    cases v with
    | none =>
      simp only [encodeV, List.cons_append, List.nil_append]
      rw [decodeV_red_n]
    | bool b =>
      cases b <;> simp only [encodeV, List.cons_append, List.nil_append]
      · rw [decodeV_red_f]
      · rw [decodeV_red_t]
    | int n =>
      by_cases hn : 0 ≤ n
      · simp only [encodeV, if_pos hn, List.cons_append, List.nil_append]
        rw [decodeV_red_ipos]
        simp [Int.toNat_of_nonneg hn]
      · simp only [encodeV, if_neg hn, List.cons_append, List.nil_append]
        rw [decodeV_red_ineg]
        have h2 : ((-n).toNat : Int) = -n := Int.toNat_of_nonneg (by omega)
        rw [h2]; simp
    | str s =>
      simp only [encodeV, List.cons_append]
      rw [decodeV_red_s, decodeTake_exact]
      rfl
    | bytes b =>
      simp only [encodeV, List.cons_append]
      rw [decodeV_red_y, decodeTake_exact]
      rfl
    | tuple xs =>
      simp only [picklable] at hp
      simp only [sizeV] at hs
      simp only [encodeV, List.cons_append, List.append_assoc]
      rw [decodeV_red_u]
      rw [decList_encodeList fuel ih xs rest hp (by omega)]
    | list xs =>
      simp only [picklable] at hp
      simp only [sizeV] at hs
      simp only [encodeV, List.cons_append, List.append_assoc]
      rw [decodeV_red_l]
      rw [decList_encodeList fuel ih xs rest hp (by omega)]
    | dict kvs =>
      simp only [picklable] at hp
      simp only [sizeV] at hs
      simp only [encodeV, List.cons_append, List.append_assoc]
      rw [decodeV_red_d]
      rw [decKV_encodeKV fuel ih kvs rest hp (by omega)]
    | func id => simp [picklable] at hp

mutual

theorem sizeV_le_encode : ∀ v : PyVal, sizeV v ≤ (encodeV v).length
  | .none => by simp [sizeV, encodeV]
  | .bool b => by cases b <;> simp [sizeV, encodeV]
  | .int n => by simp only [sizeV, encodeV]; split <;> simp
  | .str s => by simp [sizeV, encodeV]
  | .bytes b => by simp [sizeV, encodeV]
  | .tuple xs => by
      have h := sizeList_le_encode xs
      simp only [sizeV, encodeV, List.length_cons]; omega
  | .list xs => by
      have h := sizeList_le_encode xs
      simp only [sizeV, encodeV, List.length_cons]; omega
  | .dict kvs => by
      have h := sizeKV_le_encode kvs
      simp only [sizeV, encodeV, List.length_cons]; omega
  | .func id => by simp [sizeV, encodeV]

theorem sizeList_le_encode : ∀ xs : List PyVal, sizeList xs ≤ (encodeList xs).length
  | [] => by simp [sizeList, encodeList]
  | x :: xs => by
      have h1 := sizeV_le_encode x
      have h2 := sizeList_le_encode xs
      simp only [sizeList, encodeList, List.length_append]; omega

theorem sizeKV_le_encode : ∀ kvs : List (PyVal × PyVal), sizeKV kvs ≤ (encodeKV kvs).length
  | [] => by simp [sizeKV, encodeKV]
  | (k, v) :: kvs => by
      have h1 := sizeV_le_encode k
      have h2 := sizeV_le_encode v
      have h3 := sizeKV_le_encode kvs
      simp only [sizeKV, encodeKV, List.length_append]; omega

end

/-- Byte frame of the pickle model: header `128`, payload, stop symbol `46`. -/
def pickleDumpsBytes (v : PyVal) : List Nat := 128 :: (encodeV v ++ [46])

/-- Faults the pickle model can raise (the set caught by serializer.py). -/
inductive PickleErr where
  | picklingError
  | unpicklingError
  | eofError
deriving Repr, DecidableEq

/-- Model of `pickle.dumps`. -/
def pickle_dumps (v : PyVal) : Except PickleErr (List Nat) :=
  if picklable v = true then .ok (pickleDumpsBytes v) else .error .picklingError

/-- Model of `pickle.loads` (ignores trailing bytes after the stop symbol). -/
def pickle_loads (b : List Nat) : Except PickleErr PyVal :=
  match b with
  | [] => .error .eofError
  | 128 :: r =>
    match decodeV (r.length + 1) r with
    | some (v, rest) => if rest.head? = some 46 then .ok v else .error .unpicklingError
    | Option.none => .error .unpicklingError
  | _ => .error .unpicklingError

theorem pickle_roundtrip (v : PyVal) (h : picklable v = true) :
    pickle_loads (pickleDumpsBytes v) = .ok v := by
  have hlen : sizeV v ≤ (encodeV v ++ [46]).length + 1 := by
    have := sizeV_le_encode v
    simp only [List.length_append, List.length_cons, List.length_nil]; omega
  have hd := decodeV_encodeV ((encodeV v ++ [46]).length + 1) v [46] h hlen
  simp only [pickleDumpsBytes, pickle_loads]
  rw [hd]
  simp

/-- Python faults surfacing in the modelled system. -/
inductive PyErr where
  | valueError (msg : List Nat)
  | keyError (k : PyVal)
  | typeError (msg : List Nat)
  | indexError
  | userError (tag : Nat) (msg : List Nat)
deriving Repr

/-- `Serializer.serialize` from serializer.py. -/
def serialize (v : PyVal) : Except PyErr (List Nat) :=
  match pickle_dumps v with
  | .ok b => .ok b
  | .error _ => .error (.valueError (bs "Input data is not picklable"))

/-- `Serializer.deserialize` from serializer.py. -/
def deserialize (b : List Nat) : Except PyErr PyVal :=
  match pickle_loads b with
  | .ok v => .ok v
  | .error _ => .error (.valueError (bs "Could not deserialize the binary data"))

theorem serialize_eq_ok (v : PyVal) (h : picklable v = true) :
    serialize v = .ok (pickleDumpsBytes v) := by
  simp [serialize, pickle_dumps, h]

theorem deserialize_dumps (v : PyVal) (h : picklable v = true) :
    deserialize (pickleDumpsBytes v) = .ok v := by
  simp [deserialize, pickle_roundtrip v h]

/-- C6: for every representable value `v` (any value the Codec can round-trip,
i.e. any value `serialize` succeeds on), `deserialize (serialize v)` equals `v`,
with equality defined structurally. -/
theorem C6_roundtrip (v : PyVal) (b : List Nat) (h : serialize v = .ok b) :
    deserialize b = .ok v := by
  by_cases hp : picklable v = true
  · rw [serialize_eq_ok v hp] at h
    cases h
    exact deserialize_dumps v hp
  · simp only [Bool.not_eq_true] at hp
    simp [serialize, pickle_dumps, hp] at h

theorem C6_roundtrip_witness :
    serialize (PyVal.dict [(.str (bs "args"), .tuple [.int 2, .int 3])])
      = .ok (pickleDumpsBytes (PyVal.dict [(.str (bs "args"), .tuple [.int 2, .int 3])]))
    ∧ deserialize (pickleDumpsBytes (PyVal.dict [(.str (bs "args"), .tuple [.int 2, .int 3])]))
      = .ok (PyVal.dict [(.str (bs "args"), .tuple [.int 2, .int 3])]) :=
  ⟨rfl, C6_roundtrip (PyVal.dict [(.str (bs "args"), .tuple [.int 2, .int 3])]) _ rfl⟩

/-- C7: `serialize` fails with exactly ValueError "Input data is not picklable"
on every value containing a non-serializable element (a live callable), and
`deserialize` fails with exactly ValueError "Could not deserialize the binary
data" on every byte input the pickle model cannot parse; neither is silently
downgraded to a default value. -/
theorem C7_error_contract :
    (∀ v : PyVal, picklable v = false →
        serialize v = .error (.valueError (bs "Input data is not picklable")))
    ∧ (∀ (b : List Nat) (e : PickleErr), pickle_loads b = .error e →
        deserialize b = .error (.valueError (bs "Could not deserialize the binary data"))) := by
  constructor
  · intro v hv
    simp [serialize, pickle_dumps, hv]
  · intro b e he
    simp [deserialize, he]

theorem C7_error_contract_witness :
    serialize (PyVal.func 0) = .error (.valueError (bs "Input data is not picklable"))
    ∧ deserialize (bs "ERROR: boom")
        = .error (.valueError (bs "Could not deserialize the binary data")) :=
  ⟨C7_error_contract.1 (PyVal.func 0) rfl,
   C7_error_contract.2 (bs "ERROR: boom") PickleErr.unpicklingError rfl⟩

/-- Printable form of a fault (model of Python `str(e)`). -/
def pyErrStr : PyErr → List Nat
  | .valueError m => m
  | .keyError (.int n) => bs (toString n)
  | .keyError (.str s) => 39 :: s ++ [39]
  | .keyError _ => bs "key"
  | .typeError m => m
  | .indexError => bs "tuple index out of range"
  | .userError _ m => m

/-- `Logger.logError` output line: the textual `ERROR: {message}` convention. -/
def errorLine (msg : List Nat) : List Nat := bs "ERROR: " ++ msg

/-- The line `Logger.logCall` appends: pickle of `{'args': args, 'kwargs': kwargs}`.
`Logger.logCall` swallows its own failures, so the result is optional. -/
def logCallLine (args kwargs : PyVal) : Option (List Nat) :=
  match serialize (.dict [(.str (bs "args"), args), (.str (bs "kwargs"), kwargs)]) with
  | .ok b => some b
  | .error _ => Option.none

/-- The line `Logger.logReturn` appends: pickle of `{'result': r, 'executionTime': t}`. -/
def logReturnLine (result : PyVal) (t : Int) : Option (List Nat) :=
  match serialize (.dict [(.str (bs "result"), result), (.str (bs "executionTime"), .int t)]) with
  | .ok b => some b
  | .error _ => Option.none

/-- Call line produced for already-serialized (bytes) args/kwargs. -/
def callLine (sargs skwargs : List Nat) : List Nat :=
  pickleDumpsBytes (.dict [(.str (bs "args"), .bytes sargs), (.str (bs "kwargs"), .bytes skwargs)])

/-- Return line produced for an already-serialized (bytes) result. -/
def returnLine (sres : List Nat) (t : Int) : List Nat :=
  pickleDumpsBytes (.dict [(.str (bs "result"), .bytes sres), (.str (bs "executionTime"), .int t)])

theorem logCallLine_bytes (sa sk : List Nat) :
    logCallLine (.bytes sa) (.bytes sk) = some (callLine sa sk) := by
  simp [logCallLine, serialize, pickle_dumps, picklable, pickKV, pickList, callLine]

theorem logReturnLine_bytes (sr : List Nat) (t : Int) :
    logReturnLine (.bytes sr) t = some (returnLine sr t) := by
  simp [logReturnLine, serialize, pickle_dumps, picklable, pickKV, pickList, returnLine]

/-- Model of a Python callable: positional args and keyword args to a result or fault. -/
def Func := List PyVal → List (List Nat × PyVal) → Except PyErr PyVal

/-- The Python kwargs dict (string keys). -/
def pyKwargs (k : List (List Nat × PyVal)) : PyVal :=
  .dict (k.map (fun p => (.str p.1, p.2)))

/-- State owned by one decorated wrapper: its private invocation counter and
the contents of the function's log file (a list of lines). -/
structure WState where
  count : Nat
  file : List (List Nat)
deriving Repr

/-- One invocation of the wrapper produced by `Debug.decorate` (debug enabled),
from debug.py: increment the counter; past the budget of 2 call through
directly; otherwise serialize args/kwargs (failures propagate before `f`
runs), append the Call line, run `f`, then append a Return line (serializing
the result; a serializer fault is caught, logged as an Error line and
re-raised) or an Error line for `f`'s own fault, which is re-raised. -/
def wrapperStep (f : Func) (args : List PyVal) (kwargs : List (List Nat × PyVal))
    (t : Int) (s : WState) : Except PyErr PyVal × WState :=
  if 2 < s.count + 1 then (f args kwargs, ⟨s.count + 1, s.file⟩)
  else
    match serialize (.tuple args) with
    | .error e => (.error e, ⟨s.count + 1, s.file⟩)
    | .ok sargs =>
      match serialize (pyKwargs kwargs) with
      | .error e => (.error e, ⟨s.count + 1, s.file⟩)
      | .ok skwargs =>
        match f args kwargs with
        | .ok result =>
          match serialize result with
          | .ok sres =>
            (.ok result,
             ⟨s.count + 1,
              (s.file ++ (logCallLine (.bytes sargs) (.bytes skwargs)).toList)
                ++ (logReturnLine (.bytes sres) t).toList⟩)
          | .error e =>
            (.error e,
             ⟨s.count + 1,
              (s.file ++ (logCallLine (.bytes sargs) (.bytes skwargs)).toList)
                ++ [errorLine (pyErrStr e)]⟩)
        | .error e =>
          (.error e,
           ⟨s.count + 1,
            (s.file ++ (logCallLine (.bytes sargs) (.bytes skwargs)).toList)
              ++ [errorLine (pyErrStr e)]⟩)

/-- Whitespace bytes stripped by Python `bytes.strip()`. -/
def isSpaceB (n : Nat) : Bool := n = 9 || n = 10 || n = 11 || n = 12 || n = 13 || n = 32

/-- Model of `line.strip()` as applied by `Logger.loadLog`. -/
def stripBytes (l : List Nat) : List Nat :=
  ((l.dropWhile isSpaceB).reverse.dropWhile isSpaceB).reverse

theorem stripBytes_ends (a b : Nat) (mid : List Nat)
    (ha : isSpaceB a = false) (hb : isSpaceB b = false) :
    stripBytes (a :: (mid ++ [b])) = a :: (mid ++ [b]) := by
  simp only [stripBytes, List.dropWhile_cons, ha, Bool.false_eq_true, if_false]
  have hrev : (a :: (mid ++ [b])).reverse = b :: (mid.reverse ++ [a]) := by
    simp
  rw [hrev]
  simp only [List.dropWhile_cons, hb, Bool.false_eq_true, if_false]
  simp

theorem stripBytes_dumps (v : PyVal) :
    stripBytes (pickleDumpsBytes v) = pickleDumpsBytes v :=
  stripBytes_ends 128 46 (encodeV v) rfl rfl

/-- Syntactic test: the line is a textual `ERROR: ` line. -/
def isErrorLine (L : List Nat) : Bool := L.take 7 == bs "ERROR: "

/-- Syntactic test: the line decodes to a Return record
`{'result': ..., 'executionTime': ...}`. -/
def isReturnLine (L : List Nat) : Bool :=
  match deserialize (stripBytes L) with
  | .ok (.dict [(.str k1, _), (.str k2, _)]) =>
      (k1 == bs "result") && (k2 == bs "executionTime")
  | _ => false

theorem picklable_callRecord (sa sk : List Nat) :
    picklable (.dict [(.str (bs "args"), .bytes sa), (.str (bs "kwargs"), .bytes sk)]) = true := by
  simp [picklable, pickKV, pickList]

theorem picklable_returnRecord (sr : List Nat) (t : Int) :
    picklable (.dict [(.str (bs "result"), .bytes sr), (.str (bs "executionTime"), .int t)]) = true := by
  simp [picklable, pickKV, pickList]

theorem deserialize_callLine (sa sk : List Nat) :
    deserialize (stripBytes (callLine sa sk))
      = .ok (.dict [(.str (bs "args"), .bytes sa), (.str (bs "kwargs"), .bytes sk)]) := by
  unfold callLine
  rw [stripBytes_dumps]
  exact deserialize_dumps _ (picklable_callRecord sa sk)

theorem deserialize_returnLine (sr : List Nat) (t : Int) :
    deserialize (stripBytes (returnLine sr t))
      = .ok (.dict [(.str (bs "result"), .bytes sr), (.str (bs "executionTime"), .int t)]) := by
  unfold returnLine
  rw [stripBytes_dumps]
  exact deserialize_dumps _ (picklable_returnRecord sr t)

theorem isReturnLine_returnLine (sr : List Nat) (t : Int) :
    isReturnLine (returnLine sr t) = true := by
  unfold isReturnLine
  rw [deserialize_returnLine]
  simp

theorem isErrorLine_errorLine (msg : List Nat) :
    isErrorLine (errorLine msg) = true := by
  unfold isErrorLine errorLine
  have h7 : (7 : Nat) = (bs "ERROR: ").length := rfl
  rw [h7, List.take_left]
  simp

/-- Callable returning Python `None` on every input. -/
def constNone : Func := fun _ _ => .ok PyVal.none

/-- Callable doubling its single integer argument (spec scenario A). -/
def doubleFn : Func := fun args _ =>
  match args with
  | [.int x] => .ok (.int (2 * x))
  | _ => .error (.typeError (bs "unsupported operand"))

/-- Callable that always raises `"boom"` (spec scenario B). -/
def failerFn : Func := fun _ _ => .error (.userError 0 (bs "boom"))

/-- C3 counterexample: with a fresh budget and an argument containing a live
callable, the direct call returns normally but the wrapped call raises the
serializer's EncodingError before `f` ever runs, so wrapping is not
transparent for every argument and budget state. -/
theorem C3_counterexample :
    constNone [PyVal.func 0] [] = .ok PyVal.none
    ∧ (wrapperStep constNone [PyVal.func 0] [] 0 ⟨0, []⟩).1
        = .error (.valueError (bs "Input data is not picklable")) :=
  ⟨rfl, rfl⟩

/-- C3 (amended): the wrapped call returns the same result or raises the same
fault as the direct call whenever the budget is exhausted, or whenever the
arguments, the kwargs and any successful result are all serializable; a
serializer failure in the logging path instead propagates to the caller. -/
theorem C3_transparency (f : Func) (a : List PyVal) (k : List (List Nat × PyVal))
    (t : Int) (s : WState) :
    (2 ≤ s.count → (wrapperStep f a k t s).1 = f a k)
    ∧ (picklable (.tuple a) = true → picklable (pyKwargs k) = true →
        (∀ r, f a k = .ok r → picklable r = true) →
        (wrapperStep f a k t s).1 = f a k) := by
  constructor
  · intro hc
    unfold wrapperStep
    rw [if_pos (by omega)]
  · intro ha hk hr
    unfold wrapperStep
    by_cases hc : 2 < s.count + 1
    · rw [if_pos hc]
    · rw [if_neg hc]
      rw [serialize_eq_ok _ ha]
      dsimp only
      rw [serialize_eq_ok _ hk]
      dsimp only
      cases hf : f a k with
      | ok r =>
        dsimp only
        rw [serialize_eq_ok r (hr r hf)]
      | error e => rfl

theorem C3_transparency_witness :
    (wrapperStep doubleFn [PyVal.int 7] [] 0 ⟨5, []⟩).1 = doubleFn [PyVal.int 7] []
    ∧ (wrapperStep doubleFn [PyVal.int 7] [] 0 ⟨0, []⟩).1 = doubleFn [PyVal.int 7] [] := by
  constructor
  · exact (C3_transparency doubleFn [PyVal.int 7] [] 0 ⟨5, []⟩).1 (by decide)
  · exact (C3_transparency doubleFn [PyVal.int 7] [] 0 ⟨0, []⟩).2 rfl rfl
      (fun r hr => by
        have h14 : doubleFn [PyVal.int 7] [] = .ok (.int 14) := rfl
        rw [h14] at hr
        cases hr
        rfl)

/-- C4 counterexample: a budget-eligible first invocation whose argument tuple
is not serializable appends no records at all (neither a Call nor a
Return/Error), although the claim requires a Call followed by a Return or
Error record; the counter is still incremented. -/
theorem C4_counterexample :
    (wrapperStep doubleFn [PyVal.func 1] [] 0 ⟨0, []⟩).2.file = []
    ∧ (wrapperStep doubleFn [PyVal.func 1] [] 0 ⟨0, []⟩).2.count = 1 :=
  ⟨rfl, rfl⟩

/-- C4 (amended): the counter is incremented on every call; a budget-eligible
invocation (count below 2) whose args and kwargs serialize appends exactly one
Call record followed by one Return record or one Error record; every
invocation past the budget appends no records at all. -/
theorem C4_budget_cutoff (f : Func) (a : List PyVal) (k : List (List Nat × PyVal))
    (t : Int) (s : WState) :
    ((wrapperStep f a k t s).2.count = s.count + 1)
    ∧ (s.count < 2 → picklable (.tuple a) = true → picklable (pyKwargs k) = true →
        ∃ L, (wrapperStep f a k t s).2.file
              = s.file ++ [callLine (pickleDumpsBytes (.tuple a)) (pickleDumpsBytes (pyKwargs k)), L]
            ∧ (isReturnLine L = true ∨ isErrorLine L = true))
    ∧ (2 ≤ s.count → (wrapperStep f a k t s).2.file = s.file) := by
  refine ⟨?_, ?_, ?_⟩
  · unfold wrapperStep
    by_cases hc : 2 < s.count + 1
    · rw [if_pos hc]
    · rw [if_neg hc]
      cases hsa : serialize (.tuple a) with
      | error e => rfl
      | ok sa =>
        cases hsk : serialize (pyKwargs k) with
        | error e => rfl
        | ok sk =>
          cases hf : f a k with
          | ok r =>
            dsimp only
            cases hsr : serialize r with
            | ok sr => rfl
            | error e => rfl
          | error e => rfl
  · intro hc ha hk
    have hc2 : ¬ (2 < s.count + 1) := by omega
    unfold wrapperStep
    rw [if_neg hc2]
    rw [serialize_eq_ok _ ha]
    dsimp only
    rw [serialize_eq_ok _ hk]
    dsimp only
    cases hf : f a k with
    | ok r =>
      dsimp only
      cases hsr : serialize r with
      | ok sr =>
        refine ⟨returnLine sr t, ?_, Or.inl (isReturnLine_returnLine sr t)⟩
        dsimp only
        rw [logCallLine_bytes, logReturnLine_bytes]
        simp
      | error e =>
        exact ⟨errorLine (pyErrStr e), by
          rw [logCallLine_bytes]
          simp, Or.inr (isErrorLine_errorLine _)⟩
    | error e =>
      exact ⟨errorLine (pyErrStr e), by
        rw [logCallLine_bytes]
        simp, Or.inr (isErrorLine_errorLine _)⟩
  · intro hc
    unfold wrapperStep
    rw [if_pos (by omega)]

theorem C4_budget_cutoff_witness :
    (wrapperStep constNone [PyVal.int 1] [] 0 ⟨0, []⟩).2.count = 0 + 1
    ∧ (∃ L, (wrapperStep constNone [PyVal.int 1] [] 0 ⟨0, []⟩).2.file
          = [] ++ [callLine (pickleDumpsBytes (.tuple [PyVal.int 1])) (pickleDumpsBytes (pyKwargs [])), L]
        ∧ (isReturnLine L = true ∨ isErrorLine L = true))
    ∧ (wrapperStep constNone [PyVal.int 1] [] 0 ⟨5, []⟩).2.file = [] :=
  ⟨(C4_budget_cutoff constNone [PyVal.int 1] [] 0 ⟨0, []⟩).1,
   (C4_budget_cutoff constNone [PyVal.int 1] [] 0 ⟨0, []⟩).2.1 (by decide) rfl rfl,
   (C4_budget_cutoff constNone [PyVal.int 1] [] 0 ⟨5, []⟩).2.2 (by decide)⟩

/-- C5: on every budget-eligible invocation that reaches `f` (args and kwargs
serialize) and in which `f` raises, the wrapper appends exactly one Call line
followed by exactly one Error line — no Return record — and re-raises the
identical fault to the caller. -/
theorem C5_fault_recording (f : Func) (a : List PyVal) (k : List (List Nat × PyVal))
    (t : Int) (s : WState) (e : PyErr)
    (hbud : s.count < 2)
    (ha : picklable (.tuple a) = true) (hk : picklable (pyKwargs k) = true)
    (hf : f a k = .error e) :
    (wrapperStep f a k t s).1 = .error e
    ∧ (wrapperStep f a k t s).2.file
        = s.file ++ [callLine (pickleDumpsBytes (.tuple a)) (pickleDumpsBytes (pyKwargs k)),
                     errorLine (pyErrStr e)] := by
  have hc2 : ¬ (2 < s.count + 1) := by omega
  unfold wrapperStep
  rw [if_neg hc2]
  rw [serialize_eq_ok _ ha]
  dsimp only
  rw [serialize_eq_ok _ hk]
  dsimp only
  rw [hf]
  dsimp only
  refine ⟨rfl, ?_⟩
  rw [logCallLine_bytes]
  simp

theorem C5_fault_recording_witness :
    (wrapperStep failerFn [PyVal.int 1] [] 0 ⟨0, []⟩).1 = .error (.userError 0 (bs "boom"))
    ∧ (wrapperStep failerFn [PyVal.int 1] [] 0 ⟨0, []⟩).2.file
        = [] ++ [callLine (pickleDumpsBytes (.tuple [PyVal.int 1])) (pickleDumpsBytes (pyKwargs [])),
                 errorLine (pyErrStr (.userError 0 (bs "boom")))] :=
  C5_fault_recording failerFn [PyVal.int 1] [] 0 ⟨0, []⟩ (.userError 0 (bs "boom"))
    (by decide) rfl rfl rfl

/-- C10: a captured invocation stores, in the Call line, the Serializer
byte-encoding of the argument tuple and of the kwargs dict (serialized once by
the wrapper, then wrapped in bytes fields of the record dict that
`Logger.logCall` serializes again), and in the Return line the byte-encoding
of the result; deserializing one log line therefore yields byte strings in the
`args`, `kwargs` and `result` fields, not the original values. -/
theorem C10_stored_bytes (f : Func) (a : List PyVal) (k : List (List Nat × PyVal))
    (t : Int) (s : WState) (r : PyVal)
    (hbud : s.count < 2)
    (ha : picklable (.tuple a) = true) (hk : picklable (pyKwargs k) = true)
    (hf : f a k = .ok r) (hr : picklable r = true) :
    (wrapperStep f a k t s).2.file
      = s.file ++ [callLine (pickleDumpsBytes (.tuple a)) (pickleDumpsBytes (pyKwargs k)),
                   returnLine (pickleDumpsBytes r) t]
    ∧ deserialize (stripBytes (callLine (pickleDumpsBytes (.tuple a)) (pickleDumpsBytes (pyKwargs k))))
        = .ok (.dict [(.str (bs "args"), .bytes (pickleDumpsBytes (.tuple a))),
                      (.str (bs "kwargs"), .bytes (pickleDumpsBytes (pyKwargs k)))])
    ∧ deserialize (stripBytes (returnLine (pickleDumpsBytes r) t))
        = .ok (.dict [(.str (bs "result"), .bytes (pickleDumpsBytes r)),
                      (.str (bs "executionTime"), .int t)]) := by
  refine ⟨?_, deserialize_callLine _ _, deserialize_returnLine _ _⟩
  have hc2 : ¬ (2 < s.count + 1) := by omega
  unfold wrapperStep
  rw [if_neg hc2, serialize_eq_ok _ ha]
  dsimp only
  rw [serialize_eq_ok _ hk]
  dsimp only
  rw [hf]
  dsimp only
  rw [serialize_eq_ok _ hr]
  dsimp only
  rw [logCallLine_bytes, logReturnLine_bytes]
  simp

theorem C10_stored_bytes_witness :
    (wrapperStep doubleFn [PyVal.int 5] [] 0 ⟨0, []⟩).2.file
      = [callLine (pickleDumpsBytes (.tuple [PyVal.int 5])) (pickleDumpsBytes (pyKwargs [])),
         returnLine (pickleDumpsBytes (PyVal.int 10)) 0]
    ∧ deserialize (stripBytes (callLine (pickleDumpsBytes (.tuple [PyVal.int 5])) (pickleDumpsBytes (pyKwargs []))))
        = .ok (.dict [(.str (bs "args"), .bytes (pickleDumpsBytes (.tuple [PyVal.int 5]))),
                      (.str (bs "kwargs"), .bytes (pickleDumpsBytes (pyKwargs [])))])
    ∧ deserialize (stripBytes (returnLine (pickleDumpsBytes (PyVal.int 10)) 0))
        = .ok (.dict [(.str (bs "result"), .bytes (pickleDumpsBytes (PyVal.int 10))),
                      (.str (bs "executionTime"), .int 0)]) := by
  have h := C10_stored_bytes doubleFn [PyVal.int 5] [] 0 ⟨0, []⟩ (PyVal.int 10)
    (by decide) rfl rfl rfl rfl
  simpa using h

/-- Scanner underlying Python `s.replace(pat, "")`: `skip` counts characters
of a matched occurrence still to be dropped; at `skip = 0` it tests for a
fresh (non-overlapping, leftmost) occurrence. -/
def replGo (pat : List Nat) : Nat → List Nat → List Nat
  | _, [] => []
  | skip + 1, _ :: rest => replGo pat skip rest
  | 0, c :: rest =>
    if pat ≠ [] ∧ (c :: rest).take pat.length = pat
    then replGo pat (pat.length - 1) rest
    else c :: replGo pat 0 rest

/-- `path.replace(".log", "")` as performed by `FunctionMapping.load_function`. -/
def stripLog (s : List Nat) : List Nat := replGo (bs ".log") 0 s

theorem replGo_nil (pat : List Nat) (k : Nat) : replGo pat k [] = [] := by
  cases k <;> rfl

theorem replGo_succ_cons (pat : List Nat) (k c : Nat) (rest : List Nat) :
    replGo pat (k + 1) (c :: rest) = replGo pat k rest := rfl

theorem replGo_zero_cons (pat : List Nat) (c : Nat) (rest : List Nat) :
    replGo pat 0 (c :: rest)
      = if pat ≠ [] ∧ (c :: rest).take pat.length = pat
        then replGo pat (pat.length - 1) rest
        else c :: replGo pat 0 rest := rfl

theorem replGo_skip (pat : List Nat) :
    ∀ xs ys, replGo pat xs.length (xs ++ ys) = replGo pat 0 ys := by
  intro xs
  induction xs with
  | nil => intro ys; rfl
  | cons c xs ih =>
    intro ys
    rw [List.cons_append, List.length_cons, replGo_succ_cons]
    exact ih ys

theorem replGo_consume (pat : List Nat) (hne : pat ≠ []) (ys : List Nat) :
    replGo pat 0 (pat ++ ys) = replGo pat 0 ys := by
  cases pat with
  | nil => exact absurd rfl hne
  | cons p ps =>
    rw [List.cons_append, replGo_zero_cons]
    rw [if_pos ⟨hne, by rw [List.length_cons, List.take_succ_cons, List.take_left]⟩]
    rw [List.length_cons, Nat.add_sub_cancel]
    exact replGo_skip (p :: ps) ps ys

theorem replGo_scan (p : Nat) (ps : List Nat) :
    ∀ xs ys, (∀ c ∈ xs, c ≠ p) →
      replGo (p :: ps) 0 (xs ++ ys) = xs ++ replGo (p :: ps) 0 ys := by
  intro xs
  induction xs with
  | nil => intro ys _; rfl
  | cons c xs ih =>
    intro ys h
    have hc : c ≠ p := h c (List.mem_cons_self c xs)
    rw [List.cons_append, replGo_zero_cons, if_neg ?hcond]
    case hcond =>
      intro hand
      have h2 := hand.2
      rw [List.length_cons, List.take_succ_cons] at h2
      exact hc (List.head_eq_of_cons_eq h2)
    rw [ih ys (fun d hd => h d (List.mem_cons_of_mem c hd))]
    rfl

/-- A match of `pat` at the head of `xs ++ sep :: ys` with `sep ∉ pat` lies
entirely inside `xs`: `pat` is a prefix of `xs`. -/
theorem take_match_in_left (pat xs ys : List Nat) (sep : Nat)
    (hsep : sep ∉ pat) (_hne : pat ≠ [])
    (hm : (xs ++ sep :: ys).take pat.length = pat) :
    xs.take pat.length = pat ∧ pat.length ≤ xs.length := by
  rw [List.take_append_eq_append_take] at hm
  by_cases hle : pat.length ≤ xs.length
  · rw [Nat.sub_eq_zero_of_le hle] at hm
    simp only [List.take_zero, List.append_nil] at hm
    exact ⟨hm, hle⟩
  · exfalso
    have hlt : xs.length < pat.length := by omega
    have hpos : 0 < pat.length - xs.length := by omega
    have : (sep :: ys).take (pat.length - xs.length)
        = sep :: ys.take (pat.length - xs.length - 1) := by
      cases hk : pat.length - xs.length with
      | zero => omega
      | succ k => rw [List.take_succ_cons]; simp
    rw [this] at hm
    apply hsep
    rw [← hm]
    exact List.mem_append_right _ (List.mem_cons_self _ _)

theorem replGo_split (pat : List Nat) (sep : Nat) (hsep : sep ∉ pat) (hne : pat ≠ []) :
    ∀ xs ys, replGo pat 0 (xs ++ sep :: ys)
      = replGo pat 0 xs ++ sep :: replGo pat 0 ys := by
  suffices H : ∀ n xs ys, xs.length ≤ n →
      replGo pat 0 (xs ++ sep :: ys) = replGo pat 0 xs ++ sep :: replGo pat 0 ys by
    intro xs ys; exact H xs.length xs ys le_rfl
  intro n
  induction n with
  | zero =>
    intro xs ys hlen
    have hxs : xs = [] := List.length_eq_zero.mp (by omega)
    subst hxs
    cases hp : pat with
    | nil => exact absurd hp hne
    | cons p ps =>
      have hps : sep ∉ p :: ps := hp ▸ hsep
      rw [List.nil_append, replGo_zero_cons, if_neg ?hc0]
      case hc0 =>
        intro hand
        have h2 := hand.2
        rw [List.length_cons, List.take_succ_cons] at h2
        exact hps (List.head_eq_of_cons_eq h2 ▸ List.mem_cons_self _ _)
      rfl
  | succ n ihn =>
    intro xs ys hlen
    by_cases hm : (xs ++ sep :: ys).take pat.length = pat
    · obtain ⟨htake, hle⟩ := take_match_in_left pat xs ys sep hsep hne hm
      have hxs : xs = pat ++ xs.drop pat.length := by
        conv_lhs => rw [← List.take_append_drop pat.length xs]
        rw [htake]
      have hlen3 : (xs.drop pat.length).length ≤ n := by
        rw [List.length_drop]
        have hp1 : 1 ≤ pat.length := by
          cases pat with
          | nil => exact absurd rfl hne
          | cons a b => simp
        omega
      rw [hxs, List.append_assoc, replGo_consume pat hne, replGo_consume pat hne]
      exact ihn (xs.drop pat.length) ys hlen3
    · cases hxs : xs with
      | nil =>
        subst hxs
        cases hp : pat with
        | nil => exact absurd hp hne
        | cons p ps =>
          subst hp
          rw [List.nil_append, replGo_zero_cons, if_neg ?hc1]
          case hc1 =>
            intro hand
            exact hm (by rw [List.nil_append]; exact hand.2)
          rfl
      | cons c xs2 =>
        subst hxs
        have hmx : ¬ ((c :: xs2).take pat.length = pat) := by
          intro hx
          apply hm
          have hlenx : pat.length ≤ (c :: xs2).length := by
            have := congrArg List.length hx
            rw [List.length_take] at this
            omega
          rw [List.take_append_eq_append_take, Nat.sub_eq_zero_of_le hlenx]
          simpa using hx
        rw [List.cons_append, replGo_zero_cons, if_neg ?hc2, replGo_zero_cons, if_neg ?hc3]
        case hc2 =>
          intro hand
          exact hm hand.2
        case hc3 =>
          intro hand
          exact hmx hand.2
        rw [ihn xs2 ys (by simpa using hlen)]
        rfl

theorem no_match_at_dot (f : List Nat) (hlog : ¬ ((bs "log") <+: f)) :
    (46 :: (f ++ bs ".log")).take (bs ".log").length ≠ bs ".log" := by
  intro h
  have e4 : (bs ".log").length = 4 := rfl
  have epat : bs ".log" = [46, 108, 111, 103] := rfl
  have elog : bs "log" = [108, 111, 103] := rfl
  rw [e4, epat, List.take_succ_cons] at h
  injection h with hhead h3
  apply hlog
  rw [elog]
  cases f with
  | nil => simp at h3
  | cons a f1 =>
    cases f1 with
    | nil => simp at h3
    | cons b f2 =>
      cases f2 with
      | nil => simp at h3
      | cons c f3 =>
        simp only [List.cons_append, List.take_succ_cons, List.take_zero] at h3
        have h3c := h3
        simp only [List.cons.injEq] at h3c
        obtain ⟨ha, hb, hc, _⟩ := h3c
        subst ha; subst hb; subst hc
        exact ⟨f3, rfl⟩

/-- Replacement of `".log"` on one well-behaved `module.name.log` segment. -/
theorem stripLog_segment (m f : List Nat)
    (hm46 : 46 ∉ m) (hf46 : 46 ∉ f) (hlog : ¬ ((bs "log") <+: f)) :
    replGo (bs ".log") 0 (m ++ 46 :: (f ++ bs ".log")) = m ++ 46 :: f := by
  have epat : bs ".log" = 46 :: [108, 111, 103] := rfl
  rw [epat]
  rw [replGo_scan 46 [108, 111, 103] m _ (fun c hc he => hm46 (he ▸ hc))]
  rw [replGo_zero_cons, if_neg ?hnm]
  case hnm =>
    intro hand
    exact (no_match_at_dot f hlog) hand.2
  rw [replGo_scan 46 [108, 111, 103] f _ (fun c hc he => hf46 (he ▸ hc))]
  have hcons : replGo (46 :: [108, 111, 103]) 0 (46 :: [108, 111, 103]) = [] := by
    have h := replGo_consume (46 :: [108, 111, 103]) (by simp) []
    simpa using h
  rw [hcons]
  simp

/-- Python `str.split(sep)` for a one-character separator. -/
def pySplitOn (sep : Nat) : List Nat → List (List Nat)
  | [] => [[]]
  | c :: rest =>
    if c = sep then [] :: pySplitOn sep rest
    else
      match pySplitOn sep rest with
      | [] => [[c]]
      | h :: t2 => (c :: h) :: t2

theorem pySplitOn_cons (sep c : Nat) (rest : List Nat) :
    pySplitOn sep (c :: rest)
      = if c = sep then [] :: pySplitOn sep rest
        else
          match pySplitOn sep rest with
          | [] => [[c]]
          | h :: t2 => (c :: h) :: t2 := rfl

theorem pySplitOn_ne_nil (sep : Nat) (l : List Nat) : pySplitOn sep l ≠ [] := by
  cases l with
  | nil => simp [pySplitOn]
  | cons c rest =>
    simp only [pySplitOn]
    split
    · simp
    · split <;> simp

theorem pySplitOn_no_sep (sep : Nat) : ∀ l, sep ∉ l → pySplitOn sep l = [l] := by
  intro l
  induction l with
  | nil => intro _; rfl
  | cons c rest ih =>
    intro h
    have hc : c ≠ sep := fun he => h (he ▸ List.mem_cons_self c rest)
    simp only [pySplitOn, if_neg hc]
    rw [ih (fun hm => h (List.mem_cons_of_mem c hm))]

theorem pySplitOn_append (sep : Nat) :
    ∀ xs ys, pySplitOn sep (xs ++ sep :: ys) = pySplitOn sep xs ++ pySplitOn sep ys := by
  intro xs ys
  induction xs with
  | nil =>
    rw [List.nil_append, pySplitOn_cons, if_pos rfl]
    rfl
  | cons c xs ih =>
    by_cases hc : c = sep
    · subst hc
      rw [List.cons_append, pySplitOn_cons, if_pos rfl, ih, pySplitOn_cons, if_pos rfl]
      rfl
    · rw [List.cons_append, pySplitOn_cons, if_neg hc, ih, pySplitOn_cons, if_neg hc]
      obtain ⟨h, t2, hht⟩ : ∃ h t2, pySplitOn sep xs = h :: t2 := by
        cases hx : pySplitOn sep xs with
        | nil => exact absurd hx (pySplitOn_ne_nil sep xs)
        | cons a b => exact ⟨a, b, rfl⟩
      rw [hht]
      rfl

/-- Association-list lookup (model of dict / getattr lookup). -/
def lookupA {α : Type} : List (List Nat × α) → List Nat → Option α
  | [], _ => Option.none
  | (k, v) :: rest, key => if k = key then some v else lookupA rest key

/-- The registry of live callables visible to `FunctionMapping.load_function`:
the `__main__` globals it consults and the importable modules. -/
structure Env where
  mainGlobals : List (List Nat × Func)
  modules : List (List Nat × List (List Nat × Func))

/-- Direct resolution of an identity `(module_name, func_name)` to a live
callable, failures giving `none`. -/
def resolveIdentity (env : Env) (module_name func_name : List Nat) : Option Func :=
  if module_name = bs "__main__" then lookupA env.mainGlobals func_name
  else
    match lookupA env.modules module_name with
    | some mod => lookupA mod func_name
    | Option.none => Option.none

/-- `FunctionMapping.get_log_file_path`: `f"{log_directory}/{module}.{name}.log"`. -/
def get_log_file_path (log_directory module_name func_name : List Nat) : List Nat :=
  log_directory ++ 47 :: (module_name ++ 46 :: (func_name ++ bs ".log"))

/-- `FunctionMapping.load_function` on a log-file path: strip every `".log"`
occurrence, split on `/`, take the last segment, split it on `.` into exactly
a module and a function name (anything else, like the unpack `ValueError`, is
caught and yields `None`), then look the callable up; every failure returns
`None`. -/
def load_function (env : Env) (log_file_path : List Nat) : Option Func :=
  if log_file_path = [] then Option.none
  else
    match pySplitOn 46 ((pySplitOn 47 (stripLog log_file_path)).getLastD []) with
    | [module_name, func_name] =>
        if module_name = bs "__main__" then lookupA env.mainGlobals func_name
        else
          match lookupA env.modules module_name with
          | some mod => lookupA mod func_name
          | Option.none => Option.none
    | _ => Option.none

/-- C8 counterexample: module `"m"` and function `"logx"` contain no path
separator, no dot and no embedded `".log"`, and `"m"."logx"` is registered;
yet `load_function` on the built path returns `None`, because
`path.replace(".log", "")` also deletes the `".log"` occurrence formed by the
dot separator and the `"log"`-prefixed function name, leaving `"logs/mx"`. -/
theorem C8_counterexample :
    get_log_file_path (bs "logs") (bs "m") (bs "logx") = bs "logs/m.logx.log"
    ∧ load_function (Env.mk [] [(bs "m", [(bs "logx", constNone)])]) (bs "logs/m.logx.log")
        = Option.none
    ∧ resolveIdentity (Env.mk [] [(bs "m", [(bs "logx", constNone)])]) (bs "m") (bs "logx")
        = some constNone :=
  ⟨rfl, rfl, rfl⟩

/-- C8 (amended): for module and function names without path separator, dot or
embedded `".log"`, and whose function name additionally does not begin with
`"log"`, `load_function` applied to the path built by `get_log_file_path`
recovers the identity and returns exactly the direct resolution of
`(module, name)` — a live callable when registered, `None` on any resolution
failure, never a fault. -/
theorem C8_path_inversion (env : Env) (dir m f : List Nat)
    (hm47 : 47 ∉ m) (hf47 : 47 ∉ f) (hm46 : 46 ∉ m) (hf46 : 46 ∉ f)
    (hlog : ¬ ((bs "log") <+: f)) :
    load_function env (get_log_file_path dir m f) = resolveIdentity env m f := by
  unfold load_function
  rw [if_neg ?hne0]
  case hne0 =>
    intro h0
    simp [get_log_file_path] at h0
  have hstrip : stripLog (get_log_file_path dir m f)
      = replGo (bs ".log") 0 dir ++ 47 :: (m ++ 46 :: f) := by
    unfold stripLog get_log_file_path
    rw [replGo_split (bs ".log") 47 (by decide) (by decide) dir (m ++ 46 :: (f ++ bs ".log"))]
    rw [stripLog_segment m f hm46 hf46 hlog]
  rw [hstrip]
  rw [pySplitOn_append 47 (replGo (bs ".log") 0 dir) (m ++ 46 :: f)]
  rw [pySplitOn_no_sep 47 (m ++ 46 :: f) ?h47]
  case h47 =>
    intro hmem
    rcases List.mem_append.mp hmem with hmm | hmc
    · exact hm47 hmm
    · rcases List.mem_cons.mp hmc with h46 | hmf
      · omega
      · exact hf47 hmf
  rw [List.getLastD_concat]
  rw [pySplitOn_append 46 m f, pySplitOn_no_sep 46 m hm46, pySplitOn_no_sep 46 f hf46]
  rfl

def envIdW : Env := ⟨[], [(bs "mymod", [(bs "myfn", doubleFn)])]⟩

theorem C8_path_inversion_witness :
    load_function envIdW (get_log_file_path (bs "logs") (bs "mymod") (bs "myfn"))
      = some doubleFn := by
  have h := C8_path_inversion envIdW (bs "logs") (bs "mymod") (bs "myfn")
    (by decide) (by decide) (by decide) (by decide) (by decide)
  rw [h]
  rfl

mutual

/-- Python `==` on the modelled values (structural). -/
def pyEqB : PyVal → PyVal → Bool
  | .none, .none => true
  | .bool a, .bool b => a == b
  | .int a, .int b => a == b
  | .str a, .str b => a == b
  | .bytes a, .bytes b => a == b
  | .tuple a, .tuple b => pyEqL a b
  | .list a, .list b => pyEqL a b
  | .dict a, .dict b => pyEqKV a b
  | .func a, .func b => a == b
  | _, _ => false

def pyEqL : List PyVal → List PyVal → Bool
  | [], [] => true
  | x :: xs, y :: ys => pyEqB x y && pyEqL xs ys
  | _, _ => false

def pyEqKV : List (PyVal × PyVal) → List (PyVal × PyVal) → Bool
  | [], [] => true
  | (k1, v1) :: xs, (k2, v2) :: ys => pyEqB k1 k2 && pyEqB v1 v2 && pyEqKV xs ys
  | _, _ => false

end

/-- File system visible to the replay side: path to log-file lines
(`none` = the open fails, which `loadLog` swallows). -/
def FS := List Nat → Option (List (List Nat))

/-- Decode lines in order, stopping at the first failure: `Logger.loadLog`
wraps the whole loop in one `try`, so a bad line ends the dataset. -/
def loadLines : List (List Nat) → List PyVal
  | [] => []
  | l :: ls =>
    match deserialize (stripBytes l) with
    | .ok v => v :: loadLines ls
    | .error _ => []

/-- `Logger.loadLog`: read and deserialize the records of one log file;
any failure yields the dataset collected so far. -/
def loadLog (fs : FS) (p : List Nat) : List PyVal :=
  match fs p with
  | some lines => loadLines lines
  | Option.none => []

/-- Python `len()` on the modelled values. -/
def pyLenE : PyVal → Except PyErr Nat
  | .str s => .ok s.length
  | .bytes b => .ok b.length
  | .tuple xs => .ok xs.length
  | .list xs => .ok xs.length
  | .dict kvs => .ok kvs.length
  | _ => .error (.typeError (bs "object has no len"))

def lookupKV : List (PyVal × PyVal) → PyVal → Option PyVal
  | [], _ => Option.none
  | (k, v) :: rest, key => if pyEqB k key then some v else lookupKV rest key

/-- Python subscription `v[k]` for the cases the replay engine can hit. -/
def pySubscript (v k : PyVal) : Except PyErr PyVal :=
  match v with
  | .dict kvs =>
    match lookupKV kvs k with
    | some r => .ok r
    | Option.none => .error (.keyError k)
  | .tuple xs =>
    match k with
    | .int i =>
      if 0 ≤ i then
        match xs.drop i.toNat with
        | x :: _ => .ok x
        | [] => .error .indexError
      else .error .indexError
    | _ => .error (.typeError (bs "indices must be integers"))
  | .list xs =>
    match k with
    | .int i =>
      if 0 ≤ i then
        match xs.drop i.toNat with
        | x :: _ => .ok x
        | [] => .error .indexError
      else .error .indexError
    | _ => .error (.typeError (bs "indices must be integers"))
  | _ => .error (.typeError (bs "object is not subscriptable"))

/-- Python `*`-unpacking of a value into positional arguments. -/
def starArgs : PyVal → Except PyErr (List PyVal)
  | .tuple xs => .ok xs
  | .list xs => .ok xs
  | .dict kvs => .ok (kvs.map Prod.fst)
  | .str s => .ok (s.map (fun c => .str [c]))
  | _ => .error (.typeError (bs "argument after * must be an iterable"))

def kwPairs : List (PyVal × PyVal) → Except PyErr (List (List Nat × PyVal))
  | [] => .ok []
  | (.str k, v) :: rest => (kwPairs rest).map (fun t => (k, v) :: t)
  | _ => .error (.typeError (bs "keywords must be strings"))

/-- Python `**`-unpacking of a value into keyword arguments. -/
def kwArgsOf : PyVal → Except PyErr (List (List Nat × PyVal))
  | .dict kvs => kwPairs kvs
  | _ => .error (.typeError (bs "argument after ** must be a mapping"))

/-- Python `a, b = xs` unpack error message. -/
def unpackMsg (n : Nat) : List Nat :=
  if n < 2 then bs "not enough values to unpack (expected 2)"
  else bs "too many values to unpack (expected 2)"

/-- `Testing.testCallable`: reload the log, unpack the record list into
`(inputs, expected_output)`, invoke `func` according to `len(inputs)` and
compare the result with `expected_output`; every Python fault propagates. -/
def testCallable (fs : FS) (p : List Nat) (func : Func) : Except PyErr Bool :=
  match loadLog fs p with
  | [inputs, expected] => do
      let n ← pyLenE inputs
      let actual ←
        if n = 2 then do
          let a0 ← pySubscript inputs (.int 0)
          let a1 ← pySubscript inputs (.int 1)
          let args ← starArgs a0
          let ks ← kwArgsOf a1
          func args ks
        else if n = 1 then do
          let a0 ← pySubscript inputs (.int 0)
          let args ← starArgs a0
          func args []
        else func [] []
      .ok (pyEqB actual expected)
  | ds => .error (.valueError (unpackMsg ds.length))

/-- `Testing.createTestCase`: unpack the loaded records into
`(inputs, expected_output)` — a dataset whose length is not exactly 2 raises
an uncaught `ValueError` — then resolve the callable from the path;
`None` resolution yields a skipped (`none`) case. -/
def createTestCase (fs : FS) (env : Env) (p : List Nat) :
    Except PyErr (Option (PyVal × PyVal × Func)) :=
  match loadLog fs p with
  | [inputs, expected] =>
    match load_function env p with
    | some func => .ok (some (inputs, expected, func))
    | Option.none => .ok Option.none
  | ds => .error (.valueError (unpackMsg ds.length))

/-- Aggregate counters of one verification run (`TestSummary`). -/
structure TestSummary where
  passed : Nat
  failed : Nat
  skipped : Nat
deriving Repr, DecidableEq

def runSuiteGo (fs : FS) (env : Env) : Nat → Nat → Nat → List (List Nat) → Except PyErr TestSummary
  | p, f, sk, [] => .ok ⟨p, f, sk⟩
  | p, f, sk, path :: rest =>
    match createTestCase fs env path with
    | .error e => .error e
    | .ok Option.none => runSuiteGo fs env p f (sk + 1) rest
    | .ok (some (_, _, func)) =>
      match testCallable fs path func with
      | .error e => .error e
      | .ok true => runSuiteGo fs env (p + 1) f sk rest
      | .ok false => runSuiteGo fs env p (f + 1) sk rest

/-- `Testing.runTestSuite`: fold the per-file outcomes into a `TestSummary`;
faults raised while processing a file propagate and abort the suite. -/
def runTestSuite (fs : FS) (env : Env) (paths : List (List Nat)) : Except PyErr TestSummary :=
  runSuiteGo fs env 0 0 0 paths

/-- The Call record of spec scenario C: `{'args': (2, 3), 'kwargs': {}}`. -/
def callRec : PyVal :=
  .dict [(.str (bs "args"), .tuple [.int 2, .int 3]), (.str (bs "kwargs"), .dict [])]

/-- The Return record of spec scenario C: `{'result': 5, 'executionTime': 0}`. -/
def retRec : PyVal :=
  .dict [(.str (bs "result"), .int 5), (.str (bs "executionTime"), .int 0)]

/-- `root/pkg.add.log` of scenario C: one Call line then one Return line. -/
def addLogFile : List (List Nat) := [pickleDumpsBytes callRec, pickleDumpsBytes retRec]

def fsAdd : FS := fun p => if p = bs "root/pkg.add.log" then some addLogFile else Option.none

/-- `pkg.add` resolving to `add(a, b) = a + b`. -/
def addFn : Func := fun args kwargs =>
  match args, kwargs with
  | [.int x, .int y], [] => .ok (.int (x + y))
  | _, _ => .error (.typeError (bs "unsupported operand"))

def envAdd : Env := ⟨[], [(bs "pkg", [(bs "add", addFn)])]⟩

def envEmpty : Env := ⟨[], []⟩

theorem runSuiteGo_nil (fs : FS) (env : Env) (p f sk : Nat) :
    runSuiteGo fs env p f sk [] = .ok ⟨p, f, sk⟩ := rfl

theorem runSuiteGo_sum (fs : FS) (env : Env) :
    ∀ (paths : List (List Nat)) (p f sk : Nat) (s : TestSummary),
      runSuiteGo fs env p f sk paths = .ok s →
      s.passed + s.failed + s.skipped = p + f + sk + paths.length := by
  intro paths
  induction paths with
  | nil =>
    intro p f sk s h
    rw [runSuiteGo_nil] at h
    cases h
    simp
  | cons path rest ih =>
    intro p f sk s h
    unfold runSuiteGo at h
    split at h
    · exact absurd h (by simp)
    · have := ih p f (sk + 1) s h
      simp only [List.length_cons]
      omega
    · split at h
      · exact absurd h (by simp)
      · have := ih (p + 1) f sk s h
        simp only [List.length_cons]
        omega
      · have := ih p (f + 1) sk s h
        simp only [List.length_cons]
        omega

/-- C9: whenever `runTestSuite` returns a summary, every input log path has
contributed exactly one of the three counters:
`passed + failed + skipped = len(logPaths)`. -/
theorem C9_suite_aggregation (fs : FS) (env : Env) (paths : List (List Nat)) (s : TestSummary)
    (h : runTestSuite fs env paths = .ok s) :
    s.passed + s.failed + s.skipped = paths.length := by
  have h2 := runSuiteGo_sum fs env paths 0 0 0 s h
  simpa using h2

theorem C9_suite_aggregation_witness :
    (TestSummary.mk 0 0 1).passed + (TestSummary.mk 0 0 1).failed
        + (TestSummary.mk 0 0 1).skipped
      = [bs "root/pkg.add.log"].length :=
  C9_suite_aggregation fsAdd envEmpty [bs "root/pkg.add.log"] ⟨0, 0, 1⟩ rfl

/-- C1 (code bug): on scenario C — log file `root/pkg.add.log` holding
`Call{args:(2,3), kwargs:{}}` then `Return{result:5}`, with `pkg.add`
resolving to `add(a,b)=a+b` — `runTestSuite` does not return
`passed=1, failed=0, skipped=0`: `testCallable` unpacks the two-record
dataset as `(inputs, expected_output)`, so `inputs` is the Call record dict
and `inputs[0]` raises an uncaught `KeyError: 0`, aborting the suite. -/
theorem C1_scenarioC_keyerror :
    runTestSuite fsAdd envAdd [bs "root/pkg.add.log"] = .error (.keyError (.int 0)) := rfl

/-- A log file whose single line is the scenario-C Call record. -/
def callOnlyFile : List (List Nat) := [pickleDumpsBytes callRec]

/-- A log file holding the Call record then a textual `ERROR: boom` line
(the Error line fails to unpickle, so `loadLog` stops after the Call). -/
def callErrorFile : List (List Nat) := [pickleDumpsBytes callRec, errorLine (bs "boom")]

def fsMalformed : FS := fun p =>
  if p = bs "root/pkg.one.log" then some callOnlyFile
  else if p = bs "root/pkg.two.log" then some callErrorFile
  else Option.none

/-- C2 (code bug): a log file with a lone Call record, or a Call followed by
an Error record, does not replay as Skip: `createTestCase` unpacks the
one-record dataset as `(inputs, expected_output)`, which raises an uncaught
`ValueError`, so one such file aborts the whole `runTestSuite` run. -/
theorem C2_malformed_aborts :
    runTestSuite fsMalformed envAdd [bs "root/pkg.one.log"]
      = .error (.valueError (bs "not enough values to unpack (expected 2)"))
    ∧ runTestSuite fsMalformed envAdd [bs "root/pkg.two.log"]
      = .error (.valueError (bs "not enough values to unpack (expected 2)")) :=
  ⟨rfl, rfl⟩
